import Mathlib

/-!
Shallow embedding of `pele::SimplePairwiseInteractionList`
(src/source/simple_pairwise_ilist.h), a pairwise potential evaluator over an
explicit interaction list, together with proofs about its two evaluation
routines `get_energy` and `get_energy_gradient`.

Doubles are modelled as rationals (exact arithmetic); the `long int` entries
of the interaction list as integers.  Every array access of the C++ code is
modelled as a bounds-checked access in the `Option` monad: `none` is the
error branch (out-of-bounds access, or a failing debug assertion).
-/

namespace pele

/-- Interaction law interface: `energy(r2)` and `energy_gradient(r2, &gij)`,
the latter returning the pair energy and writing the derivative coefficient
`gij` through the pointer (modelled as returning the pair `(e, gij)`). -/
structure pairwise_interaction where
  energy : ℚ → ℚ
  energy_gradient : ℚ → ℚ × ℚ

/-- Distance policy interface: maps two positions to a separation vector. -/
def distance_policy : Type := (ℚ × ℚ × ℚ) → (ℚ × ℚ × ℚ) → (ℚ × ℚ × ℚ)

/-- Default distance policy `cartesian_distance`: plain per-axis subtraction. -/
def cartesian_distance : distance_policy :=
  fun r1 r2 => (r1.1 - r2.1, r1.2.1 - r2.2.1, r1.2.2 - r2.2.2)

/-- The evaluator's fixed configuration: the owned interaction law, the owned
distance policy and the copied interaction list `_ilist`. -/
structure SimplePairwiseInteractionList where
  interaction : pairwise_interaction
  dist : distance_policy
  ilist : List ℤ

/-- Constructor: `dist` defaults to a fresh `cartesian_distance` when the
caller passes NULL (modelled by `Option`). -/
def mkSimplePairwise (interaction : pairwise_interaction) (ilist : List ℤ)
    (dist : Option distance_policy) : SimplePairwiseInteractionList :=
  ⟨interaction, dist.getD cartesian_distance, ilist⟩

/-- Conversion `size_t i1 = 3*_ilist[i]`: a negative index wraps around to a
huge unsigned value, i.e. a guaranteed out-of-bounds access (error branch). -/
def pairIndex (a : ℤ) : Option ℕ :=
  if 0 ≤ a then some (3 * a.toNat) else none

/-- Read the three coordinates `x[j]`, `x[j+1]`, `x[j+2]` of one particle. -/
def readPos (x : List ℚ) (j : ℕ) : Option (ℚ × ℚ × ℚ) :=
  (x.get? j).bind fun a =>
  (x.get? (j + 1)).bind fun b =>
  (x.get? (j + 2)).bind fun c =>
  some (a, b, c)

/-- Bounds-checked `l[j] += d`. -/
def addAt (l : List ℚ) (j : ℕ) (d : ℚ) : Option (List ℚ) :=
  (l.get? j).bind fun v => some (l.set j (v + d))

/-- Bounds-checked `l[j] -= d`. -/
def subAt (l : List ℚ) (j : ℕ) (d : ℚ) : Option (List ℚ) :=
  (l.get? j).bind fun v => some (l.set j (v - d))

/-- The three writes `grad[j+k] -= g * dr[k]`, `k = 0, 1, 2`. -/
def subAt3 (l : List ℚ) (j : ℕ) (g : ℚ) (dr : ℚ × ℚ × ℚ) : Option (List ℚ) :=
  (subAt l j (g * dr.1)).bind fun l0 =>
  (subAt l0 (j + 1) (g * dr.2.1)).bind fun l1 =>
  subAt l1 (j + 2) (g * dr.2.2)

/-- The three writes `grad[j+k] += g * dr[k]`, `k = 0, 1, 2`. -/
def addAt3 (l : List ℚ) (j : ℕ) (g : ℚ) (dr : ℚ × ℚ × ℚ) : Option (List ℚ) :=
  (addAt l j (g * dr.1)).bind fun l0 =>
  (addAt l0 (j + 1) (g * dr.2.1)).bind fun l1 =>
  addAt l1 (j + 2) (g * dr.2.2)

/-- Separation vector `dr[k] = x[i1+k] - x[i2+k]`. -/
def drOf (p1 p2 : ℚ × ℚ × ℚ) : ℚ × ℚ × ℚ :=
  (p1.1 - p2.1, p1.2.1 - p2.2.1, p1.2.2 - p2.2.2)

/-- Squared norm `r2 = dr[0]*dr[0] + dr[1]*dr[1] + dr[2]*dr[2]`. -/
def r2Of (dr : ℚ × ℚ × ℚ) : ℚ :=
  dr.1 * dr.1 + dr.2.1 * dr.2.1 + dr.2.2 * dr.2.2

/-- One iteration of the `get_energy` loop: for the pair `(a, b)` read both
positions, form `r2` and return `_interaction->energy(r2)`. -/
def energyBody (inter : pairwise_interaction) (x : List ℚ) (a b : ℤ) :
    Option ℚ :=
  (pairIndex a).bind fun i1 =>
  (pairIndex b).bind fun i2 =>
  (readPos x i1).bind fun p1 =>
  (readPos x i2).bind fun p2 =>
  some (inter.energy (r2Of (drOf p1 p2)))

/-- The `get_energy` loop `for(i = 0; i < nlist; i += 2)`: a trailing odd
element makes the iteration read `_ilist[i+1]` one past the end. -/
def energyLoop (inter : pairwise_interaction) (x : List ℚ) :
    List ℤ → Option ℚ
  | [] => some 0
  | [_] => none
  | a :: b :: rest =>
      (energyBody inter x a b).bind fun e1 =>
      (energyLoop inter x rest).bind fun e2 =>
      some (e1 + e2)

/-- Operation `get_energy`. -/
def get_energy (pot : SimplePairwiseInteractionList) (x : List ℚ) : Option ℚ :=
  energyLoop pot.interaction x pot.ilist

/-- One iteration of the `get_energy_gradient` loop: compute `dr` and `r2`,
call `energy_gradient(r2, &gij)`, then scatter `-gij*dr` into particle `a`'s
slots and `+gij*dr` into particle `b`'s slots. -/
def gradBody (inter : pairwise_interaction) (x : List ℚ) (a b : ℤ)
    (grad : List ℚ) : Option (ℚ × List ℚ) :=
  (pairIndex a).bind fun i1 =>
  (pairIndex b).bind fun i2 =>
  (readPos x i1).bind fun p1 =>
  (readPos x i2).bind fun p2 =>
  (subAt3 grad i1 (inter.energy_gradient (r2Of (drOf p1 p2))).2
      (drOf p1 p2)).bind fun grad1 =>
  (addAt3 grad1 i2 (inter.energy_gradient (r2Of (drOf p1 p2))).2
      (drOf p1 p2)).bind fun grad2 =>
  some ((inter.energy_gradient (r2Of (drOf p1 p2))).1, grad2)

/-- The `get_energy_gradient` loop, threading the gradient buffer and
accumulating the energy in list order. -/
def gradLoop (inter : pairwise_interaction) (x : List ℚ) :
    List ℤ → List ℚ → Option (ℚ × List ℚ)
  | [], grad => some (0, grad)
  | [_], _ => none
  | a :: b :: rest, grad =>
      (gradBody inter x a b grad).bind fun r1 =>
      (gradLoop inter x rest r1.2).bind fun r2 =>
      some (r1.1 + r2.1, r2.2)

/-- Operation `get_energy_gradient`: assert `x.size() == grad.size()`, zero
the gradient buffer (`grad[i] = 0` for `i < x.size()`), assert (debug build)
every `_ilist[i] < natoms` with `natoms = x.size()/3`, then run the loop. -/
def get_energy_gradient (pot : SimplePairwiseInteractionList)
    (x grad : List ℚ) : Option (ℚ × List ℚ) :=
  let natoms := x.length / 3
  if x.length = grad.length then
    if pot.ilist.all (fun e => e < (natoms : ℤ)) then
      gradLoop pot.interaction x pot.ilist (List.replicate x.length 0)
    else none
  else none

/-- The interaction list split into its consecutive pairs; `none` when the
length is odd (the last loop iteration would read past the end). -/
def toPairs : List ℤ → Option (List (ℤ × ℤ))
  | [] => some []
  | [_] => none
  | a :: b :: rest => (toPairs rest).map (fun ps => (a, b) :: ps)

/-- Evaluate an option-valued function on every element, collecting all
results; `none` as soon as one evaluation fails. -/
def mapOption {α β : Type} (f : α → Option β) : List α → Option (List β)
  | [] => some []
  | a :: as => (f a).bind fun b => (mapOption f as).bind fun bs => some (b :: bs)

/-- Two-step list induction matching the `i += 2` loops. -/
def twoStepInduction {motive : List ℤ → Prop} (h0 : motive [])
    (h1 : ∀ a, motive [a])
    (h2 : ∀ a b rest, motive rest → motive (a :: b :: rest)) :
    ∀ l, motive l
  | [] => h0
  | [a] => h1 a
  | a :: b :: rest => h2 a b rest (twoStepInduction h0 h1 h2 rest)

/-! Concrete instances used by counterexamples and witnesses. -/

/-- Interaction law of §8 of the spec: `energy(r2) = r2`,
`energy_and_derivative(r2) = (r2, 2)`. -/
def quadLaw : pairwise_interaction :=
  ⟨fun r2 => r2, fun r2 => (r2, 2)⟩

/-- Evaluator for the single pair `(0, 1)`. -/
def pot01 : SimplePairwiseInteractionList :=
  mkSimplePairwise quadLaw [0, 1] none

/-- Evaluator for the swapped single pair `(1, 0)`. -/
def pot10 : SimplePairwiseInteractionList :=
  mkSimplePairwise quadLaw [1, 0] none

/-- Positions `particle0 = (0,0,0)`, `particle1 = (1,0,0)`. -/
def x01 : List ℚ := [0, 0, 0, 1, 0, 0]

/-- A zeroed six-entry gradient buffer. -/
def grad6 : List ℚ := [0, 0, 0, 0, 0, 0]

/-- Evaluator whose list `[0, 1, 0, 2]` has particle 0 in two pairs. -/
def pot012 : SimplePairwiseInteractionList :=
  mkSimplePairwise quadLaw [0, 1, 0, 2] none

/-- Positions of three particles: `(0,0,0)`, `(1,0,0)`, `(0,2,0)`. -/
def x3 : List ℚ := [0, 0, 0, 1, 0, 0, 0, 2, 0]

/-- A zeroed nine-entry gradient buffer. -/
def grad9 : List ℚ := [0, 0, 0, 0, 0, 0, 0, 0, 0]

/-! Auxiliary view of the gradient writes as lists of additive updates
`(index, delta)`, used to reason about commutation and superposition. -/

/-- Apply a list of additive updates in order, each one bounds-checked. -/
def applyAdds : List (ℕ × ℚ) → List ℚ → Option (List ℚ)
  | [], l => some l
  | u :: us, l => (addAt l u.1 u.2).bind (applyAdds us)

/-- The three updates performed by `subAt3 l j g dr`. -/
def subUpdates (j : ℕ) (g : ℚ) (dr : ℚ × ℚ × ℚ) : List (ℕ × ℚ) :=
  [(j, -(g * dr.1)), (j + 1, -(g * dr.2.1)), (j + 2, -(g * dr.2.2))]

/-- The three updates performed by `addAt3 l j g dr`. -/
def addUpdates (j : ℕ) (g : ℚ) (dr : ℚ × ℚ × ℚ) : List (ℕ × ℚ) :=
  [(j, g * dr.1), (j + 1, g * dr.2.1), (j + 2, g * dr.2.2)]

/-- Sum of the buffer entries belonging to axis `k` (slots `3i + k`). -/
def axisSum (k : ℕ) (l : List ℚ) : ℚ :=
  ∑ j ∈ Finset.range l.length, if j % 3 = k then l.getD j 0 else 0

/-- All six gradient updates of one pair iteration. -/
def pairUpdates (i1 i2 : ℕ) (g : ℚ) (dr : ℚ × ℚ × ℚ) : List (ℕ × ℚ) :=
  subUpdates i1 g dr ++ addUpdates i2 g dr

/-! Helper lemmas about the update primitives. -/

lemma get?_of_lt {l : List ℚ} {j : ℕ} (h : j < l.length) :
    l.get? j = some (l.getD j 0) := by
  rw [List.get?_eq_getElem?, List.getD_eq_getElem?_getD,
    List.getElem?_eq_getElem h]
  rfl

lemma get?_of_ge {l : List ℚ} {j : ℕ} (h : l.length ≤ j) :
    l.get? j = none := by
  rw [List.get?_eq_getElem?, List.getElem?_eq_none h]

lemma addAt_eq_some {l m : List ℚ} {j : ℕ} {d : ℚ} :
    addAt l j d = some m ↔ j < l.length ∧ m = l.set j (l.getD j 0 + d) := by
  by_cases hj : j < l.length
  · unfold addAt
    rw [get?_of_lt hj]
    simp [hj, eq_comm]
  · unfold addAt
    rw [get?_of_ge (by omega)]
    simp [hj]

lemma addAt_some {l : List ℚ} {j : ℕ} (d : ℚ) (hj : j < l.length) :
    addAt l j d = some (l.set j (l.getD j 0 + d)) :=
  addAt_eq_some.mpr ⟨hj, rfl⟩

lemma addAt_none {l : List ℚ} {j : ℕ} (d : ℚ) (hj : ¬ j < l.length) :
    addAt l j d = none := by
  unfold addAt
  rw [get?_of_ge (by omega)]
  rfl

lemma subAt_eq_addAt (l : List ℚ) (j : ℕ) (d : ℚ) :
    subAt l j d = addAt l j (-d) := by
  simp only [subAt, addAt, sub_eq_add_neg]

lemma addAt_length {l m : List ℚ} {j : ℕ} {d : ℚ} (h : addAt l j d = some m) :
    m.length = l.length := by
  obtain ⟨-, rfl⟩ := addAt_eq_some.mp h
  exact List.length_set ..

lemma getD_set_self {l : List ℚ} {j : ℕ} (v : ℚ) (hj : j < l.length) :
    (l.set j v).getD j 0 = v := by
  rw [List.getD_eq_getElem?_getD, List.getElem?_set_self hj]
  rfl

lemma getD_set_ne {l : List ℚ} {i j : ℕ} (v : ℚ) (hne : i ≠ j) :
    (l.set i v).getD j 0 = l.getD j 0 := by
  rw [List.getD_eq_getElem?_getD, List.getElem?_set_ne hne,
    ← List.getD_eq_getElem?_getD]

lemma addAt_comm (l : List ℚ) (j j' : ℕ) (u v : ℚ) :
    (addAt l j u).bind (fun m => addAt m j' v) =
      (addAt l j' v).bind (fun m => addAt m j u) := by
  by_cases hj : j < l.length
  · by_cases hj' : j' < l.length
    · rw [addAt_some u hj, addAt_some v hj', Option.some_bind, Option.some_bind]
      rcases eq_or_ne j j' with rfl | hne
      · rw [addAt_some v (by simpa using hj), addAt_some u (by simpa using hj)]
        rw [List.set_set, List.set_set, getD_set_self _ hj, getD_set_self _ hj]
        congr 2
        ring
      · rw [addAt_some v (by simpa using hj'), addAt_some u (by simpa using hj)]
        rw [getD_set_ne _ hne, getD_set_ne _ hne.symm, List.set_comm _ _ _ hne]
    · rw [addAt_some u hj, Option.some_bind, addAt_none v hj',
        Option.none_bind, addAt_none v (by simpa using hj')]
  · rw [addAt_none u hj, Option.none_bind]
    by_cases hj' : j' < l.length
    · rw [addAt_some v hj', Option.some_bind, addAt_none u (by simpa using hj)]
    · rw [addAt_none v hj', Option.none_bind]

lemma applyAdds_append (us vs : List (ℕ × ℚ)) (l : List ℚ) :
    applyAdds (us ++ vs) l = (applyAdds us l).bind (applyAdds vs) := by
  induction us generalizing l with
  | nil => simp [applyAdds]
  | cons u us ih =>
    simp only [List.cons_append, applyAdds, Option.bind_assoc]
    cases addAt l u.1 u.2 <;> simp [ih]

lemma bind_addAt_applyAdds (us : List (ℕ × ℚ)) (l : List ℚ) (j : ℕ) (u : ℚ) :
    (addAt l j u).bind (applyAdds us) =
      (applyAdds us l).bind (fun m => addAt m j u) := by
  induction us generalizing l with
  | nil =>
    simp only [applyAdds, Option.some_bind]
    exact Option.bind_some _
  | cons v vs ih =>
    simp only [applyAdds]
    rw [← Option.bind_assoc, addAt_comm, Option.bind_assoc, Option.bind_assoc]
    cases addAt l v.1 v.2 <;> simp [ih]

lemma applyAdds_append_comm (us vs : List (ℕ × ℚ)) (l : List ℚ) :
    applyAdds (us ++ vs) l = applyAdds (vs ++ us) l := by
  induction us generalizing l with
  | nil => simp [applyAdds]
  | cons u us ih =>
    simp only [List.cons_append, applyAdds]
    rw [bind_addAt_applyAdds]
    show ((applyAdds (us ++ vs) l).bind fun m => addAt m u.1 u.2) =
      applyAdds (vs ++ u :: us) l
    rw [ih, applyAdds_append, Option.bind_assoc, applyAdds_append]
    simp only [← bind_addAt_applyAdds]
    cases applyAdds vs l <;> simp [applyAdds]

lemma applyAdds_length {us : List (ℕ × ℚ)} {l m : List ℚ}
    (h : applyAdds us l = some m) : m.length = l.length := by
  induction us generalizing l with
  | nil =>
    simp only [applyAdds, Option.some.injEq] at h
    rw [h]
  | cons u us ih =>
    simp only [applyAdds, Option.bind_eq_some] at h
    obtain ⟨l1, h1, h2⟩ := h
    rw [ih h2, addAt_length h1]

lemma applyAdds_getD {us : List (ℕ × ℚ)} {l m : List ℚ}
    (h : applyAdds us l = some m) (j : ℕ) :
    m.getD j 0 = l.getD j 0 + (us.map fun u => if u.1 = j then u.2 else 0).sum := by
  induction us generalizing l with
  | nil =>
    simp only [applyAdds, Option.some.injEq] at h
    simp [h]
  | cons u us ih =>
    simp only [applyAdds, Option.bind_eq_some] at h
    obtain ⟨l1, h1, h2⟩ := h
    obtain ⟨hu, rfl⟩ := addAt_eq_some.mp h1
    rw [ih h2, List.map_cons, List.sum_cons]
    rcases eq_or_ne u.1 j with rfl | hne
    · rw [getD_set_self _ hu, if_pos rfl]
      ring
    · rw [getD_set_ne _ hne, if_neg hne]
      ring

lemma applyAdds_some (us : List (ℕ × ℚ)) (l : List ℚ)
    (h : ∀ u ∈ us, u.1 < l.length) : ∃ m, applyAdds us l = some m := by
  induction us generalizing l with
  | nil => exact ⟨l, rfl⟩
  | cons u us ih =>
    have hu : u.1 < l.length := h u (List.mem_cons_self u us)
    obtain ⟨m, hm⟩ := ih (l.set u.1 (l.getD u.1 0 + u.2))
      (fun v hv => by rw [List.length_set]; exact h v (List.mem_cons_of_mem u hv))
    exact ⟨m, by simp only [applyAdds, addAt_some _ hu, Option.some_bind, hm]⟩

lemma subAt3_eq_applyAdds (l : List ℚ) (j : ℕ) (g : ℚ) (dr : ℚ × ℚ × ℚ) :
    subAt3 l j g dr = applyAdds (subUpdates j g dr) l := by
  simp only [subAt3, subUpdates, applyAdds, subAt_eq_addAt, Option.bind_some]

lemma addAt3_eq_applyAdds (l : List ℚ) (j : ℕ) (g : ℚ) (dr : ℚ × ℚ × ℚ) :
    addAt3 l j g dr = applyAdds (addUpdates j g dr) l := by
  simp only [addAt3, addUpdates, applyAdds, Option.bind_some]

/-! Helper lemmas about the loop bodies. -/

lemma r2Of_swap (p1 p2 : ℚ × ℚ × ℚ) : r2Of (drOf p2 p1) = r2Of (drOf p1 p2) := by
  unfold r2Of drOf
  ring

lemma subUpdates_swap (j : ℕ) (g : ℚ) (p1 p2 : ℚ × ℚ × ℚ) :
    subUpdates j g (drOf p2 p1) = addUpdates j g (drOf p1 p2) := by
  simp only [subUpdates, addUpdates, drOf, mul_sub, neg_sub]

lemma addUpdates_swap (j : ℕ) (g : ℚ) (p1 p2 : ℚ × ℚ × ℚ) :
    addUpdates j g (drOf p2 p1) = subUpdates j g (drOf p1 p2) := by
  simp only [subUpdates, addUpdates, drOf, mul_sub, neg_sub]

lemma applyAdds_pairUpdates_swap (i1 i2 : ℕ) (g : ℚ) (p1 p2 : ℚ × ℚ × ℚ)
    (grad : List ℚ) :
    applyAdds (pairUpdates i2 i1 g (drOf p2 p1)) grad =
      applyAdds (pairUpdates i1 i2 g (drOf p1 p2)) grad := by
  unfold pairUpdates
  rw [subUpdates_swap i2 g p1 p2, addUpdates_swap i1 g p1 p2,
    applyAdds_append_comm]

lemma gradBody_eq (inter : pairwise_interaction) (x : List ℚ) (a b : ℤ)
    (grad : List ℚ) :
    gradBody inter x a b grad =
      (pairIndex a).bind fun i1 => (pairIndex b).bind fun i2 =>
      (readPos x i1).bind fun p1 => (readPos x i2).bind fun p2 =>
      (applyAdds
          (pairUpdates i1 i2 (inter.energy_gradient (r2Of (drOf p1 p2))).2
            (drOf p1 p2)) grad).bind
        fun g2 => some ((inter.energy_gradient (r2Of (drOf p1 p2))).1, g2) := by
  unfold gradBody pairUpdates
  simp only [subAt3_eq_applyAdds, addAt3_eq_applyAdds, applyAdds_append,
    Option.bind_assoc]

lemma gradBody_swap (inter : pairwise_interaction) (x : List ℚ) (a b : ℤ)
    (grad : List ℚ) :
    gradBody inter x b a grad = gradBody inter x a b grad := by
  rw [gradBody_eq, gradBody_eq]
  cases h1 : pairIndex a with
  | none =>
    cases h2 : pairIndex b with
    | none => simp
    | some i2 => simp
  | some i1 =>
    cases h2 : pairIndex b with
    | none => simp
    | some i2 =>
      simp only [Option.some_bind]
      cases h3 : readPos x i1 with
      | none =>
        cases h4 : readPos x i2 with
        | none => simp
        | some p2 => simp
      | some p1 =>
        cases h4 : readPos x i2 with
        | none => simp
        | some p2 =>
          simp only [Option.some_bind]
          rw [r2Of_swap p1 p2, applyAdds_pairUpdates_swap]

lemma energyBody_swap (inter : pairwise_interaction) (x : List ℚ) (a b : ℤ) :
    energyBody inter x b a = energyBody inter x a b := by
  unfold energyBody
  cases h1 : pairIndex a with
  | none =>
    cases h2 : pairIndex b with
    | none => simp
    | some i2 => simp
  | some i1 =>
    cases h2 : pairIndex b with
    | none => simp
    | some i2 =>
      simp only [Option.some_bind]
      cases h3 : readPos x i1 with
      | none =>
        cases h4 : readPos x i2 with
        | none => simp
        | some p2 => simp
      | some p1 =>
        cases h4 : readPos x i2 with
        | none => simp
        | some p2 =>
          simp only [Option.some_bind]
          rw [r2Of_swap p1 p2]

/-! Helper lemmas for superposition: the loop is additive in the gradient
buffer, because every write only adds a value that depends on `x` alone. -/

lemma getD_zipWith_add {g h : List ℚ} {j : ℕ} (hg : j < g.length)
    (hh : j < h.length) :
    (List.zipWith (· + ·) g h).getD j 0 = g.getD j 0 + h.getD j 0 := by
  rw [List.getD_eq_getElem?_getD, List.getElem?_zipWith,
    List.getElem?_eq_getElem hg, List.getElem?_eq_getElem hh,
    List.getD_eq_getElem?_getD, List.getD_eq_getElem?_getD,
    List.getElem?_eq_getElem hg, List.getElem?_eq_getElem hh]
  rfl

lemma zipWith_add_set {g h : List ℚ} {j : ℕ} (v : ℚ) (hg : j < g.length) :
    List.zipWith (· + ·) g (h.set j v) =
      (List.zipWith (· + ·) g h).set j (g.getD j 0 + v) := by
  apply List.ext_getElem?
  intro n
  rcases eq_or_ne j n with rfl | hne
  · by_cases hh : j < h.length
    · rw [List.getElem?_set_self (by simp [List.length_zipWith]; omega),
        List.getElem?_zipWith, List.getElem?_set_self hh,
        List.getElem?_eq_getElem hg, List.getD_eq_getElem?_getD,
        List.getElem?_eq_getElem hg]
      rfl
    · rw [List.set_eq_of_length_le (by omega),
        List.set_eq_of_length_le (by simp [List.length_zipWith]; omega)]
  · rw [List.getElem?_set_ne hne, List.getElem?_zipWith,
      List.getElem?_zipWith, List.getElem?_set_ne hne]

lemma addAt_zipWith_add {g h : List ℚ} (j : ℕ) (d : ℚ)
    (hlen : g.length = h.length) :
    addAt (List.zipWith (· + ·) g h) j d =
      (addAt h j d).map (fun m => List.zipWith (· + ·) g m) := by
  by_cases hj : j < h.length
  · rw [addAt_some d (by simp [List.length_zipWith, hlen, hj]),
      addAt_some d hj, Option.map_some', zipWith_add_set _ (by omega),
      getD_zipWith_add (by omega) hj]
    rw [add_assoc]
  · rw [addAt_none d (by simp [List.length_zipWith, hlen]; omega),
      addAt_none d hj, Option.map_none']

lemma applyAdds_zipWith_add {us : List (ℕ × ℚ)} {g h : List ℚ}
    (hlen : g.length = h.length) :
    applyAdds us (List.zipWith (· + ·) g h) =
      (applyAdds us h).map (fun m => List.zipWith (· + ·) g m) := by
  induction us generalizing h with
  | nil => simp [applyAdds]
  | cons u us ih =>
    simp only [applyAdds, addAt_zipWith_add u.1 u.2 hlen]
    cases haa : addAt h u.1 u.2 with
    | none => simp
    | some m =>
      simp only [Option.map_some', Option.some_bind]
      exact ih (hlen.trans (addAt_length haa).symm)

lemma gradBody_length {inter : pairwise_interaction} {x : List ℚ} {a b : ℤ}
    {grad : List ℚ} {r : ℚ × List ℚ} (h : gradBody inter x a b grad = some r) :
    r.2.length = grad.length := by
  rw [gradBody_eq] at h
  simp only [Option.bind_eq_some, Option.some.injEq] at h
  obtain ⟨i1, h1, i2, h2, p1, h3, p2, h4, g2, h5, h6⟩ := h
  rw [← h6]
  exact applyAdds_length h5

lemma gradBody_zipWith_add {inter : pairwise_interaction} {x : List ℚ}
    {a b : ℤ} {g h : List ℚ} (hlen : g.length = h.length) :
    gradBody inter x a b (List.zipWith (· + ·) g h) =
      (gradBody inter x a b h).map
        (fun r => (r.1, List.zipWith (· + ·) g r.2)) := by
  rw [gradBody_eq, gradBody_eq]
  cases pairIndex a with
  | none => simp
  | some i1 =>
    cases pairIndex b with
    | none => simp
    | some i2 =>
      simp only [Option.some_bind]
      cases readPos x i1 with
      | none => simp
      | some p1 =>
        cases readPos x i2 with
        | none => simp
        | some p2 =>
          simp only [Option.some_bind]
          rw [applyAdds_zipWith_add hlen]
          cases applyAdds (pairUpdates i1 i2
            (inter.energy_gradient (r2Of (drOf p1 p2))).2 (drOf p1 p2)) h <;>
            simp

lemma gradLoop_zipWith_add {inter : pairwise_interaction} {x : List ℚ} :
    ∀ (l : List ℤ) (g h : List ℚ), g.length = h.length →
      gradLoop inter x l (List.zipWith (· + ·) g h) =
        (gradLoop inter x l h).map
          (fun r => (r.1, List.zipWith (· + ·) g r.2)) := by
  intro l
  induction l using twoStepInduction with
  | h0 => intro g h hlen; simp [gradLoop]
  | h1 a => intro g h hlen; simp [gradLoop]
  | h2 a b rest ih =>
    intro g h hlen
    simp only [gradLoop, gradBody_zipWith_add hlen]
    cases hb : gradBody inter x a b h with
    | none => simp
    | some r1 =>
      simp only [Option.map_some', Option.some_bind]
      rw [ih _ _ (hlen.trans (gradBody_length hb).symm)]
      cases gradLoop inter x rest r1.2 <;> simp

lemma zipWith_add_replicate_zero {l : List ℚ} :
    List.zipWith (· + ·) l (List.replicate l.length 0) = l := by
  apply List.ext_getElem?
  intro n
  rw [List.getElem?_zipWith, List.getElem?_replicate]
  by_cases hn : n < l.length
  · rw [List.getElem?_eq_getElem hn, if_pos hn]
    simp
  · rw [List.getElem?_eq_none (by omega), if_neg hn]

lemma toPairs_mem :
    ∀ (l : List ℤ) (ps : List (ℤ × ℤ)), toPairs l = some ps →
      ∀ p ∈ ps, p.1 ∈ l ∧ p.2 ∈ l := by
  intro l
  induction l using twoStepInduction with
  | h0 =>
    intro ps hps p hp
    simp only [toPairs, Option.some.injEq] at hps
    rw [← hps] at hp
    exact absurd hp (List.not_mem_nil p)
  | h1 a => intro ps hps; simp [toPairs] at hps
  | h2 a b rest ih =>
    intro ps hps p hp
    simp only [toPairs, Option.map_eq_some'] at hps
    obtain ⟨ps', hps', rfl⟩ := hps
    rcases List.mem_cons.mp hp with rfl | hp'
    · exact ⟨List.mem_cons_self _ _, List.mem_cons_of_mem _ (List.mem_cons_self _ _)⟩
    · obtain ⟨h1', h2'⟩ := ih ps' hps' p hp'
      exact ⟨List.mem_cons_of_mem _ (List.mem_cons_of_mem _ h1'),
        List.mem_cons_of_mem _ (List.mem_cons_of_mem _ h2')⟩

lemma mapOption_congr {α β : Type} {f g : α → Option β} :
    ∀ {l : List α}, (∀ a ∈ l, f a = g a) → mapOption f l = mapOption g l := by
  intro l
  induction l with
  | nil => intro h; rfl
  | cons a as ih =>
    intro h
    simp only [mapOption, h a (List.mem_cons_self a as),
      ih (fun b hb => h b (List.mem_cons_of_mem a hb))]

lemma get_energy_gradient_single {inter : pairwise_interaction}
    {d : distance_policy} {a b : ℤ} {x grad : List ℚ}
    (hlen : x.length = grad.length)
    (hab : ([a, b].all (fun i => i < ((x.length / 3 : ℕ) : ℤ))) = true) :
    get_energy_gradient ⟨inter, d, [a, b]⟩ x grad =
      gradBody inter x a b (List.replicate x.length 0) := by
  simp only [get_energy_gradient]
  rw [if_pos hlen, if_pos hab]
  simp only [gradLoop]
  cases gradBody inter x a b (List.replicate x.length 0) <;> simp

lemma gradLoop_superposition {inter : pairwise_interaction} {x : List ℚ} :
    ∀ (l : List ℤ) (ps : List (ℤ × ℤ)) (e : ℚ) (G : List ℚ),
      toPairs l = some ps →
      gradLoop inter x l (List.replicate x.length 0) = some (e, G) →
      ∃ rs : List (ℚ × List ℚ),
        mapOption (fun p => gradBody inter x p.1 p.2
          (List.replicate x.length 0)) ps = some rs ∧
        G = (rs.map Prod.snd).foldr (fun v acc => List.zipWith (· + ·) v acc)
              (List.replicate x.length 0) := by
  intro l
  induction l using twoStepInduction with
  | h0 =>
    intro ps e G hps h
    simp only [toPairs, Option.some.injEq] at hps
    simp only [gradLoop, Option.some.injEq, Prod.mk.injEq] at h
    exact ⟨[], by rw [← hps]; rfl, by rw [← h.2]; rfl⟩
  | h1 a => intro ps e G hps h; simp [toPairs] at hps
  | h2 a b rest ih =>
    intro ps e G hps h
    simp only [toPairs, Option.map_eq_some'] at hps
    obtain ⟨ps', hps', rfl⟩ := hps
    simp only [gradLoop, Option.bind_eq_some, Option.some.injEq,
      Prod.mk.injEq] at h
    obtain ⟨r1, hb1, r2', hl, he, hG⟩ := h
    have hr12 : r1.2.length = x.length := by
      rw [gradBody_length hb1, List.length_replicate]
    have hz : List.zipWith (· + ·) r1.2 (List.replicate x.length 0) = r1.2 := by
      rw [← hr12]
      exact zipWith_add_replicate_zero
    rw [← hz, gradLoop_zipWith_add _ _ _ (by rw [hr12, List.length_replicate])]
      at hl
    obtain ⟨rr, hrr, hr2'⟩ := Option.map_eq_some'.mp hl
    obtain ⟨rs', hrs', hfold⟩ := ih ps' rr.1 rr.2 hps'
      (by rw [hrr])
    refine ⟨r1 :: rs', ?_, ?_⟩
    · simp only [mapOption, hb1, hrs', Option.some_bind]
    · rw [← hG, ← hr2']
      simp only [List.map_cons, List.foldr_cons, ← hfold]


/-! Helper lemmas for axis sums and per-pair antisymmetry. -/

lemma pairIndex_eq_some {a : ℤ} {i : ℕ} (h : pairIndex a = some i) :
    0 ≤ a ∧ i = 3 * a.toNat := by
  unfold pairIndex at h
  by_cases ha : 0 ≤ a
  · rw [if_pos ha, Option.some.injEq] at h
    exact ⟨ha, h.symm⟩
  · rw [if_neg ha] at h
    exact absurd h (by simp)

lemma axisSum_set {l : List ℚ} {j : ℕ} (v : ℚ) (k : ℕ) (hj : j < l.length) :
    axisSum k (l.set j v) =
      axisSum k l + (if j % 3 = k then v - l.getD j 0 else 0) := by
  unfold axisSum
  rw [List.length_set]
  have key : ∀ i ∈ Finset.range l.length,
      (if i % 3 = k then (l.set j v).getD i 0 else 0) =
        (if i % 3 = k then l.getD i 0 else 0) +
          (if i = j then (if j % 3 = k then v - l.getD j 0 else 0) else 0) := by
    intro i hi
    rcases eq_or_ne i j with rfl | hne
    · rw [if_pos rfl, getD_set_self v hj]
      split_ifs <;> ring
    · rw [if_neg hne, getD_set_ne v hne.symm, add_zero]
  rw [Finset.sum_congr rfl key, Finset.sum_add_distrib,
    Finset.sum_ite_eq' (Finset.range l.length) j
      (fun _ => if j % 3 = k then v - l.getD j 0 else 0),
    if_pos (Finset.mem_range.mpr hj)]

lemma axisSum_addAt {l m : List ℚ} {j : ℕ} {d : ℚ} (h : addAt l j d = some m)
    (k : ℕ) : axisSum k m = axisSum k l + (if j % 3 = k then d else 0) := by
  obtain ⟨hj, rfl⟩ := addAt_eq_some.mp h
  rw [axisSum_set _ k hj]
  congr 1
  split_ifs <;> ring

lemma axisSum_applyAdds {us : List (ℕ × ℚ)} {l m : List ℚ}
    (h : applyAdds us l = some m) (k : ℕ) :
    axisSum k m =
      axisSum k l + (us.map fun u => if u.1 % 3 = k then u.2 else 0).sum := by
  induction us generalizing l with
  | nil =>
    simp only [applyAdds, Option.some.injEq] at h
    simp [← h]
  | cons u us ih =>
    simp only [applyAdds, Option.bind_eq_some] at h
    obtain ⟨l1, h1, h2⟩ := h
    rw [ih h2, axisSum_addAt h1 k, List.map_cons, List.sum_cons]
    ring

lemma axisSum_replicate (k n : ℕ) : axisSum k (List.replicate n (0 : ℚ)) = 0 := by
  unfold axisSum
  rw [List.length_replicate]
  refine Finset.sum_eq_zero fun i hi => ?_
  have hz : (List.replicate n (0 : ℚ)).getD i 0 = 0 := by
    rw [List.getD_eq_getElem?_getD, List.getElem?_replicate]
    split_ifs <;> rfl
  rw [hz]
  split_ifs <;> rfl

lemma pairUpdates_axis_cancel (A B : ℕ) (g : ℚ) (dr : ℚ × ℚ × ℚ) (k : ℕ) :
    ((pairUpdates (3 * A) (3 * B) g dr).map
      (fun u => if u.1 % 3 = k then u.2 else 0)).sum = 0 := by
  simp only [pairUpdates, subUpdates, addUpdates, List.map_append,
    List.sum_append, List.map_cons, List.map_nil, List.sum_cons, List.sum_nil]
  rw [show (3 * A) % 3 = 0 % 3 from by omega,
    show (3 * A + 1) % 3 = 1 % 3 from by omega,
    show (3 * A + 2) % 3 = 2 % 3 from by omega,
    show (3 * B) % 3 = 0 % 3 from by omega,
    show (3 * B + 1) % 3 = 1 % 3 from by omega,
    show (3 * B + 2) % 3 = 2 % 3 from by omega]
  split_ifs <;> ring

lemma gradBody_axisSum {inter : pairwise_interaction} {x : List ℚ} {a b : ℤ}
    {grad : List ℚ} {r : ℚ × List ℚ} (h : gradBody inter x a b grad = some r)
    (k : ℕ) : axisSum k r.2 = axisSum k grad := by
  rw [gradBody_eq] at h
  simp only [Option.bind_eq_some, Option.some.injEq] at h
  obtain ⟨i1, h1, i2, h2, p1, h3, p2, h4, g2, h5, h6⟩ := h
  obtain ⟨-, rfl⟩ := pairIndex_eq_some h1
  obtain ⟨-, rfl⟩ := pairIndex_eq_some h2
  subst h6
  rw [axisSum_applyAdds h5 k, pairUpdates_axis_cancel, add_zero]

lemma gradLoop_axisSum {inter : pairwise_interaction} {x : List ℚ} :
    ∀ (l : List ℤ) (grad : List ℚ) (e : ℚ) (G : List ℚ),
      gradLoop inter x l grad = some (e, G) →
      ∀ k, axisSum k G = axisSum k grad := by
  intro l
  induction l using twoStepInduction with
  | h0 =>
    intro grad e G h k
    simp only [gradLoop, Option.some.injEq, Prod.mk.injEq] at h
    rw [← h.2]
  | h1 a =>
    intro grad e G h k
    simp [gradLoop] at h
  | h2 a b rest ih =>
    intro grad e G h k
    simp only [gradLoop, Option.bind_eq_some, Option.some.injEq,
      Prod.mk.injEq] at h
    obtain ⟨r1, hb, r2, hl, he, hG⟩ := h
    have hbody := gradBody_axisSum hb k
    have hrest := ih r1.2 r2.1 r2.2 (by rw [hl]) k
    rw [← hG, hrest, hbody]

lemma pairUpdates_getD_sum (A B : ℕ) (g : ℚ) (dr : ℚ × ℚ × ℚ) (k : ℕ)
    (hk : k < 3) :
    ((pairUpdates (3 * A) (3 * B) g dr).map
        (fun u => if u.1 = 3 * A + k then u.2 else 0)).sum =
      -(((pairUpdates (3 * A) (3 * B) g dr).map
        (fun u => if u.1 = 3 * B + k then u.2 else 0)).sum) := by
  simp only [pairUpdates, subUpdates, addUpdates, List.map_append,
    List.sum_append, List.map_cons, List.map_nil, List.sum_cons, List.sum_nil]
  rcases eq_or_ne A B with rfl | hne
  · split_ifs <;> ring
  · simp only [show (3 * A = 3 * A + k) ↔ k = 0 from by omega,
      show (3 * A + 1 = 3 * A + k) ↔ k = 1 from by omega,
      show (3 * A + 2 = 3 * A + k) ↔ k = 2 from by omega,
      show (3 * B = 3 * B + k) ↔ k = 0 from by omega,
      show (3 * B + 1 = 3 * B + k) ↔ k = 1 from by omega,
      show (3 * B + 2 = 3 * B + k) ↔ k = 2 from by omega,
      iff_false_intro (show ¬ (3 * B = 3 * A + k) from by omega),
      iff_false_intro (show ¬ (3 * B + 1 = 3 * A + k) from by omega),
      iff_false_intro (show ¬ (3 * B + 2 = 3 * A + k) from by omega),
      iff_false_intro (show ¬ (3 * A = 3 * B + k) from by omega),
      iff_false_intro (show ¬ (3 * A + 1 = 3 * B + k) from by omega),
      iff_false_intro (show ¬ (3 * A + 2 = 3 * B + k) from by omega),
      if_false]
    split_ifs <;> ring

/-! Helper lemmas for totality under the documented preconditions. -/

lemma pairIndex_some {a : ℤ} (ha : 0 ≤ a) :
    pairIndex a = some (3 * a.toNat) := by
  unfold pairIndex
  rw [if_pos ha]

lemma readPos_some {x : List ℚ} {j : ℕ} (h : j + 2 < x.length) :
    ∃ p, readPos x j = some p := by
  unfold readPos
  rw [get?_of_lt (by omega), get?_of_lt (by omega), get?_of_lt h]
  exact ⟨_, rfl⟩

lemma pairUpdates_indices {i1 i2 : ℕ} {g : ℚ} {dr : ℚ × ℚ × ℚ} {n : ℕ}
    (h1 : i1 + 2 < n) (h2 : i2 + 2 < n) :
    ∀ u ∈ pairUpdates i1 i2 g dr, u.1 < n := by
  intro u hu
  simp only [pairUpdates, subUpdates, addUpdates, List.mem_append,
    List.mem_cons, List.not_mem_nil, or_false] at hu
  rcases hu with (rfl | rfl | rfl) | (rfl | rfl | rfl) <;> dsimp only <;> omega

lemma gradBody_some {inter : pairwise_interaction} {x : List ℚ} {a b : ℤ}
    {grad : List ℚ} (ha : 0 ≤ a) (hb : 0 ≤ b)
    (ha3 : 3 * a.toNat + 2 < x.length) (hb3 : 3 * b.toNat + 2 < x.length)
    (hg : grad.length = x.length) :
    ∃ r, gradBody inter x a b grad = some r ∧ r.2.length = grad.length := by
  rw [gradBody_eq, pairIndex_some ha, pairIndex_some hb]
  simp only [Option.some_bind]
  obtain ⟨p1, hp1⟩ := readPos_some ha3
  obtain ⟨p2, hp2⟩ := readPos_some hb3
  rw [hp1, hp2]
  simp only [Option.some_bind]
  obtain ⟨m, hm⟩ := applyAdds_some
    (pairUpdates (3 * a.toNat) (3 * b.toNat)
      ((inter.energy_gradient (r2Of (drOf p1 p2))).2) (drOf p1 p2)) grad
    (pairUpdates_indices (by omega) (by omega))
  rw [hm]
  exact ⟨_, rfl, applyAdds_length hm⟩

lemma energyBody_some {inter : pairwise_interaction} {x : List ℚ} {a b : ℤ}
    (ha : 0 ≤ a) (hb : 0 ≤ b) (ha3 : 3 * a.toNat + 2 < x.length)
    (hb3 : 3 * b.toNat + 2 < x.length) :
    ∃ e, energyBody inter x a b = some e := by
  unfold energyBody
  rw [pairIndex_some ha, pairIndex_some hb]
  simp only [Option.some_bind]
  obtain ⟨p1, hp1⟩ := readPos_some ha3
  obtain ⟨p2, hp2⟩ := readPos_some hb3
  rw [hp1, hp2]
  exact ⟨_, rfl⟩

lemma energyLoop_some {inter : pairwise_interaction} {x : List ℚ} :
    ∀ l : List ℤ, (∀ i ∈ l, 0 ≤ i ∧ 3 * i.toNat + 2 < x.length) →
      Even l.length → ∃ e, energyLoop inter x l = some e := by
  intro l
  induction l using twoStepInduction with
  | h0 => intro _ _; exact ⟨0, rfl⟩
  | h1 a =>
    intro _ hev
    rw [List.length_singleton] at hev
    exact absurd hev (by decide)
  | h2 a b rest ih =>
    intro hc hev
    obtain ⟨ha0, ha3⟩ := hc a (by simp)
    obtain ⟨hb0, hb3⟩ := hc b (by simp)
    obtain ⟨e1, he1⟩ := @energyBody_some inter x a b ha0 hb0 ha3 hb3
    have hev' : Even rest.length := by
      rw [List.length_cons, List.length_cons, Nat.even_add_one,
        Nat.even_add_one, not_not] at hev
      exact hev
    obtain ⟨e2, he2⟩ := ih (fun i hi => hc i (by simp [hi])) hev'
    exact ⟨e1 + e2, by simp only [energyLoop, he1, he2, Option.some_bind]⟩

lemma gradLoop_some {inter : pairwise_interaction} {x : List ℚ} :
    ∀ (l : List ℤ) (grad : List ℚ),
      (∀ i ∈ l, 0 ≤ i ∧ 3 * i.toNat + 2 < x.length) →
      Even l.length → grad.length = x.length →
      ∃ r, gradLoop inter x l grad = some r := by
  intro l
  induction l using twoStepInduction with
  | h0 => intro grad _ _ _; exact ⟨(0, grad), rfl⟩
  | h1 a =>
    intro grad _ hev _
    rw [List.length_singleton] at hev
    exact absurd hev (by decide)
  | h2 a b rest ih =>
    intro grad hc hev hg
    obtain ⟨ha0, ha3⟩ := hc a (by simp)
    obtain ⟨hb0, hb3⟩ := hc b (by simp)
    obtain ⟨r1, hr1, hlen1⟩ := @gradBody_some inter x a b grad ha0 hb0 ha3 hb3 hg
    have hev' : Even rest.length := by
      rw [List.length_cons, List.length_cons, Nat.even_add_one,
        Nat.even_add_one, not_not] at hev
      exact hev
    obtain ⟨r2, hr2⟩ := ih r1.2 (fun i hi => hc i (by simp [hi])) hev'
      (hlen1.trans hg)
    exact ⟨(r1.1 + r2.1, r2.2),
      by simp only [gradLoop, hr1, hr2, Option.some_bind]⟩

lemma energyLoop_none {inter : pairwise_interaction} {x : List ℚ} :
    ∀ l : List ℤ, ¬ Even l.length → energyLoop inter x l = none := by
  intro l
  induction l using twoStepInduction with
  | h0 => intro h; exact absurd (by decide : Even ([] : List ℤ).length) h
  | h1 a => intro _; rfl
  | h2 a b rest ih =>
    intro h
    have h' : ¬ Even rest.length := by
      rw [List.length_cons, List.length_cons, Nat.even_add_one,
        Nat.even_add_one, not_not] at h
      exact h
    simp only [energyLoop, ih h']
    cases energyBody inter x a b <;> simp

lemma gradLoop_none {inter : pairwise_interaction} {x : List ℚ} :
    ∀ (l : List ℤ) (grad : List ℚ), ¬ Even l.length →
      gradLoop inter x l grad = none := by
  intro l
  induction l using twoStepInduction with
  | h0 => intro grad h; exact absurd (by decide : Even ([] : List ℤ).length) h
  | h1 a => intro grad _; rfl
  | h2 a b rest ih =>
    intro grad h
    have h' : ¬ Even rest.length := by
      rw [List.length_cons, List.length_cons, Nat.even_add_one,
        Nat.even_add_one, not_not] at h
      exact h
    simp only [gradLoop]
    cases hb : gradBody inter x a b grad with
    | none => simp
    | some r1 => simp [ih r1.2 h']

/-- C1, counterexample: with the §8 law and `particle0 = (0,0,0)`,
`particle1 = (1,0,0)`, the energy is `1` as claimed, but the written
gradient is `(2,0,0)` for particle 0 and `(-2,0,0)` for particle 1 — not
`(-2,0,0)` and `(2,0,0)` as the claim states: `dr = pos0 - pos1 = (-1,0,0)`
and the code does `grad[i1+k] -= gij*dr[k]`, giving `-2*(-1) = +2`. -/
theorem c1_single_pair_counterexample :
    get_energy_gradient pot01 x01 grad6 = some (1, [2, 0, 0, -2, 0, 0]) ∧
      ¬ get_energy_gradient pot01 x01 grad6 = some (1, [-2, 0, 0, 2, 0, 0]) := by
  constructor <;>
    norm_num [get_energy_gradient, pot01, mkSimplePairwise, quadLaw, x01, grad6,
      gradLoop, gradBody, pairIndex, readPos, drOf, r2Of, subAt3, addAt3, subAt,
      addAt, List.replicate]

/-- C1, amended: for the single pair `(0, 1)` with the law
`energy(r2) = r2`, `energy_and_derivative(r2) = (r2, 2)` and positions
`particle0 = (0,0,0)`, `particle1 = (1,0,0)`, `get_energy` returns `1` and
`get_energy_gradient` returns `1` and writes gradient `(2, 0, 0)` for
particle 0 and `(-2, 0, 0)` for particle 1. -/
theorem c1_single_pair_eval :
    get_energy pot01 x01 = some 1 ∧
      get_energy_gradient pot01 x01 grad6 = some (1, [2, 0, 0, -2, 0, 0]) := by
  constructor
  · norm_num [get_energy, pot01, mkSimplePairwise, quadLaw, x01, energyLoop,
      energyBody, pairIndex, readPos, drOf, r2Of]
  · norm_num [get_energy_gradient, pot01, mkSimplePairwise, quadLaw, x01, grad6,
      gradLoop, gradBody, pairIndex, readPos, drOf, r2Of, subAt3, addAt3, subAt,
      addAt, List.replicate]

/-- C2: neither evaluation operation consults the stored distance policy:
for every interaction law, interaction list, coordinate buffer and gradient
buffer, the results of `get_energy` and `get_energy_gradient` are identical
for any two distance policies supplied at construction (including the
default, `none`). -/
theorem c2_distance_policy_unused (inter : pairwise_interaction)
    (il : List ℤ) (d1 d2 : Option distance_policy) (x grad : List ℚ) :
    get_energy (mkSimplePairwise inter il d1) x =
        get_energy (mkSimplePairwise inter il d2) x ∧
      get_energy_gradient (mkSimplePairwise inter il d1) x grad =
        get_energy_gradient (mkSimplePairwise inter il d2) x grad :=
  ⟨rfl, rfl⟩

/-- C4: with an empty interaction list, `get_energy` returns `0` for every
coordinate buffer, and `get_energy_gradient` returns `0` and leaves every
entry of the (matching-length) gradient buffer equal to `0`, regardless of
its prior contents. -/
theorem c4_empty_ilist (pot : SimplePairwiseInteractionList) (x grad : List ℚ)
    (hil : pot.ilist = []) (hlen : x.length = grad.length) :
    get_energy pot x = some 0 ∧
      get_energy_gradient pot x grad = some (0, List.replicate x.length 0) := by
  constructor
  · simp [get_energy, hil, energyLoop]
  · simp [get_energy_gradient, hil, hlen, gradLoop]

/-- C4 witness. -/
theorem c4_empty_ilist_witness :
    get_energy (mkSimplePairwise quadLaw [] none) x01 = some 0 ∧
      get_energy_gradient (mkSimplePairwise quadLaw [] none) x01 grad6 =
        some (0, List.replicate x01.length 0) :=
  c4_empty_ilist (mkSimplePairwise quadLaw [] none) x01 grad6 rfl (by decide)

/-- C5: `get_energy_gradient` zeroes the gradient buffer before
accumulating, so its result — returned energy and final gradient buffer —
does not depend on the gradient buffer's prior contents (for buffers of
equal length); in particular two successive calls with the same coordinates
produce identical results. -/
theorem c5_grad_overwritten (pot : SimplePairwiseInteractionList)
    (x g1 g2 : List ℚ) (hlen : g1.length = g2.length) :
    get_energy_gradient pot x g1 = get_energy_gradient pot x g2 := by
  unfold get_energy_gradient
  rw [hlen]

/-- C5 witness. -/
theorem c5_grad_overwritten_witness :
    get_energy_gradient pot01 x01 grad6 =
      get_energy_gradient pot01 x01 [9, 8, 7, 6, 5, 4] :=
  c5_grad_overwritten pot01 x01 grad6 [9, 8, 7, 6, 5, 4] (by decide)

/-- C6, counterexample: with the §8 law, positions `(0,0,0)` and `(1,0,0)`,
swapping the single pair `(0, 1)` to `(1, 0)` gives the *same* gradient
`(2,0,0), (-2,0,0)`, not its negation, because `dr` flips sign together with
the roles of the two scatter slots. -/
theorem c6_swap_pair_counterexample :
    get_energy_gradient pot10 x01 grad6 = some (1, [2, 0, 0, -2, 0, 0]) ∧
      get_energy_gradient pot01 x01 grad6 = some (1, [2, 0, 0, -2, 0, 0]) ∧
      ¬ get_energy_gradient pot10 x01 grad6 =
          some (1, [-2, 0, 0, 2, 0, 0]) := by
  refine ⟨?_, ?_, ?_⟩ <;>
    norm_num [get_energy_gradient, pot01, pot10, mkSimplePairwise, quadLaw,
      x01, grad6, gradLoop, gradBody, pairIndex, readPos, drOf, r2Of, subAt3,
      addAt3, subAt, addAt, List.replicate]

/-- C6, amended: for any single pair `(a, b)` and any coordinate buffer,
replacing the pair by `(b, a)` leaves the total energy returned by both
operations *and the entire gradient result* unchanged (the swap negates `dr`
and also swaps the two scatter slots, so the two sign changes cancel). -/
theorem c6_swap_pair (inter : pairwise_interaction) (d : distance_policy)
    (a b : ℤ) (x grad : List ℚ) :
    get_energy ⟨inter, d, [a, b]⟩ x = get_energy ⟨inter, d, [b, a]⟩ x ∧
      get_energy_gradient ⟨inter, d, [a, b]⟩ x grad =
        get_energy_gradient ⟨inter, d, [b, a]⟩ x grad := by
  constructor
  · show energyLoop inter x [a, b] = energyLoop inter x [b, a]
    simp only [energyLoop, energyBody_swap]
  · simp only [get_energy_gradient]
    have hall : ∀ p : ℤ → Bool, [b, a].all p = [a, b].all p := by
      intro p
      simp [List.all_cons, Bool.and_comm]
    rw [hall]
    have hloop : ∀ g0 : List ℚ, gradLoop inter x [a, b] g0 =
        gradLoop inter x [b, a] g0 := by
      intro g0
      simp only [gradLoop, gradBody_swap]
    rw [hloop]

/-- C3 helper: a successful gradient-loop iteration determines a successful
energy-loop iteration with the same pair energy, provided `energy` agrees
with the first component of `energy_gradient`. -/
lemma gradBody_fst {inter : pairwise_interaction} {x : List ℚ} {a b : ℤ}
    {grad : List ℚ} {r : ℚ × List ℚ}
    (hlaw : ∀ r2, inter.energy r2 = (inter.energy_gradient r2).1)
    (h : gradBody inter x a b grad = some r) :
    energyBody inter x a b = some r.1 := by
  simp only [gradBody, Option.bind_eq_some, Option.some.injEq] at h
  obtain ⟨i1, h1, i2, h2, p1, h3, p2, h4, g1, h5, g2, h6, h7⟩ := h
  simp only [energyBody, h1, h2, h3, h4, Option.some_bind]
  rw [hlaw, ← h7]

lemma gradLoop_fst {inter : pairwise_interaction} {x : List ℚ}
    (hlaw : ∀ r2, inter.energy r2 = (inter.energy_gradient r2).1) :
    ∀ (l : List ℤ) (grad : List ℚ) (e : ℚ) (G : List ℚ),
      gradLoop inter x l grad = some (e, G) → energyLoop inter x l = some e := by
  intro l
  induction l using twoStepInduction with
  | h0 =>
    intro grad e G h
    simp only [gradLoop, Option.some.injEq, Prod.mk.injEq] at h
    simp [energyLoop, ← h.1]
  | h1 a =>
    intro grad e G h
    simp [gradLoop] at h
  | h2 a b rest ih =>
    intro grad e G h
    simp only [gradLoop, Option.bind_eq_some, Option.some.injEq,
      Prod.mk.injEq] at h
    obtain ⟨r1, hb, r2, hl, he, hG⟩ := h
    simp only [energyLoop, gradBody_fst hlaw hb, ih _ _ _ hl,
      Option.some_bind, he]

/-- C3: whenever the energy-and-gradient operation returns `(e, G)` and the
interaction law's `energy` agrees with the energy component of
`energy_gradient`, the energy-only operation returns the same `e`. -/
theorem c3_energy_consistency (pot : SimplePairwiseInteractionList)
    (x grad : List ℚ) (e : ℚ) (G : List ℚ)
    (hlaw : ∀ r2, pot.interaction.energy r2 = (pot.interaction.energy_gradient r2).1)
    (h : get_energy_gradient pot x grad = some (e, G)) :
    get_energy pot x = some e := by
  simp only [get_energy_gradient] at h
  by_cases h1 : x.length = grad.length
  · rw [if_pos h1] at h
    by_cases h2 : pot.ilist.all
        (fun i => i < ((x.length / 3 : ℕ) : ℤ)) = true
    · rw [if_pos h2] at h
      exact gradLoop_fst hlaw _ _ _ _ h
    · rw [if_neg h2] at h
      exact absurd h (by simp)
  · rw [if_neg h1] at h
    exact absurd h (by simp)

/-- C3 witness. -/
theorem c3_energy_consistency_witness : get_energy pot01 x01 = some 1 :=
  c3_energy_consistency pot01 x01 grad6 1 [2, 0, 0, -2, 0, 0] (fun _ => rfl)
    (by norm_num [get_energy_gradient, pot01, mkSimplePairwise, quadLaw, x01,
      grad6, gradLoop, gradBody, pairIndex, readPos, drOf, r2Of, subAt3,
      addAt3, subAt, addAt, List.replicate])

/-- C8 helper: a single-pair evaluator computes exactly the body energy. -/
lemma get_energy_single (inter : pairwise_interaction) (d : distance_policy)
    (a b : ℤ) (x : List ℚ) :
    get_energy ⟨inter, d, [a, b]⟩ x = energyBody inter x a b := by
  unfold get_energy
  simp only [energyLoop]
  cases energyBody inter x a b <;> simp

lemma energyLoop_eq_toPairs (inter : pairwise_interaction) (x : List ℚ) :
    ∀ l : List ℤ, energyLoop inter x l = (toPairs l).bind fun ps =>
      (mapOption (fun p => energyBody inter x p.1 p.2) ps).map List.sum := by
  intro l
  induction l using twoStepInduction with
  | h0 => simp [energyLoop, toPairs, mapOption]
  | h1 a => simp [energyLoop, toPairs]
  | h2 a b rest ih =>
    simp only [energyLoop, toPairs, ih]
    cases hp : toPairs rest with
    | none => cases hb : energyBody inter x a b <;> simp
    | some ps =>
      cases hb : energyBody inter x a b <;>
        cases hm : mapOption (fun p => energyBody inter x p.1 p.2) ps <;>
          simp [hb, hm, mapOption, List.sum_cons]

/-- C8: the total energy of `get_energy` is the sum, in list order, of the
energies of each consecutive pair evaluated independently by a single-pair
evaluator with the same interaction law (and `none` exactly when the list
has odd length, via `toPairs`). -/
theorem c8_energy_decomposes (pot : SimplePairwiseInteractionList)
    (x : List ℚ) :
    get_energy pot x = (toPairs pot.ilist).bind fun ps =>
      (mapOption (fun p =>
        get_energy ⟨pot.interaction, pot.dist, [p.1, p.2]⟩ x) ps).map List.sum := by
  simp only [get_energy_single]
  exact energyLoop_eq_toPairs _ _ _

/-- C7: when `get_energy_gradient` succeeds, the final gradient buffer is the
entrywise sum, over all pairs of the interaction list, of the gradient each
pair produces when evaluated alone by a single-pair evaluator (starting, as
always, from a zeroed buffer); a particle appearing in several pairs thus
accumulates the sum of all its per-pair contributions. -/
theorem c7_superposition (pot : SimplePairwiseInteractionList)
    (x grad : List ℚ) (e : ℚ) (G : List ℚ) (ps : List (ℤ × ℤ))
    (hps : toPairs pot.ilist = some ps)
    (h : get_energy_gradient pot x grad = some (e, G)) :
    ∃ rs : List (ℚ × List ℚ),
      mapOption (fun p =>
        get_energy_gradient ⟨pot.interaction, pot.dist, [p.1, p.2]⟩ x grad)
        ps = some rs ∧
      G = (rs.map Prod.snd).foldr (fun v acc => List.zipWith (· + ·) v acc)
            (List.replicate x.length 0) := by
  simp only [get_energy_gradient] at h
  by_cases h1 : x.length = grad.length
  · rw [if_pos h1] at h
    by_cases h2 : pot.ilist.all
        (fun i => i < ((x.length / 3 : ℕ) : ℤ)) = true
    · rw [if_pos h2] at h
      obtain ⟨rs, hrs, hG⟩ := gradLoop_superposition pot.ilist ps e G hps h
      refine ⟨rs, ?_, hG⟩
      rw [← hrs]
      apply mapOption_congr
      intro p hp
      obtain ⟨hm1, hm2⟩ := toPairs_mem pot.ilist ps hps p hp
      apply get_energy_gradient_single h1
      rw [List.all_eq_true] at h2
      simp only [List.all_cons, List.all_nil, Bool.and_true]
      rw [h2 _ hm1, h2 _ hm2]
      rfl
    · rw [if_neg h2] at h
      exact absurd h (by simp)
  · rw [if_neg h1] at h
    exact absurd h (by simp)

/-- C7 witness. -/
theorem c7_superposition_witness :
    ∃ rs : List (ℚ × List ℚ),
      mapOption (fun p =>
        get_energy_gradient ⟨pot012.interaction, pot012.dist, [p.1, p.2]⟩
          x3 grad9) [((0 : ℤ), (1 : ℤ)), (0, 2)] = some rs ∧
      ([2, 4, 0, -2, 0, 0, 0, -4, 0] : List ℚ) =
        (rs.map Prod.snd).foldr (fun v acc => List.zipWith (· + ·) v acc)
          (List.replicate x3.length 0) :=
  c7_superposition pot012 x3 grad9 5 [2, 4, 0, -2, 0, 0, 0, -4, 0]
    [(0, 1), (0, 2)] rfl
    (by norm_num [get_energy_gradient, pot012, mkSimplePairwise, quadLaw, x3,
      grad9, gradLoop, gradBody, pairIndex, readPos, drOf, r2Of, subAt3,
      addAt3, subAt, addAt, List.replicate,
      show ((2 : ℤ).toNat) = 2 from rfl])

/-- C9: (i) in every pair iteration the per-axis change applied to the first
particle's gradient slots is the exact negation of the change applied to the
second particle's slots; (ii) consequently, after a successful
`get_energy_gradient` the per-axis sum of all gradient-buffer entries is
zero (the buffer starts zeroed and every iteration's updates cancel per
axis). -/
theorem c9_pair_antisymmetry :
    (∀ (inter : pairwise_interaction) (x : List ℚ) (a b : ℤ) (grad : List ℚ)
        (e : ℚ) (G : List ℚ), gradBody inter x a b grad = some (e, G) →
        ∀ k, k < 3 →
          G.getD (3 * a.toNat + k) 0 - grad.getD (3 * a.toNat + k) 0 =
            -(G.getD (3 * b.toNat + k) 0 - grad.getD (3 * b.toNat + k) 0)) ∧
    (∀ (pot : SimplePairwiseInteractionList) (x grad : List ℚ) (e : ℚ)
        (G : List ℚ), get_energy_gradient pot x grad = some (e, G) →
        ∀ k, axisSum k G = 0) := by
  constructor
  · intro inter x a b grad e G h k hk
    rw [gradBody_eq] at h
    simp only [Option.bind_eq_some, Option.some.injEq, Prod.mk.injEq] at h
    obtain ⟨i1, h1, i2, h2, p1, h3, p2, h4, g2, h5, he', hG⟩ := h
    obtain ⟨-, rfl⟩ := pairIndex_eq_some h1
    obtain ⟨-, rfl⟩ := pairIndex_eq_some h2
    subst hG
    rw [applyAdds_getD h5, applyAdds_getD h5, add_sub_cancel_left,
      add_sub_cancel_left]
    exact pairUpdates_getD_sum a.toNat b.toNat _ _ k hk
  · intro pot x grad e G h k
    simp only [get_energy_gradient] at h
    by_cases h1 : x.length = grad.length
    · rw [if_pos h1] at h
      by_cases h2 : pot.ilist.all
          (fun i => i < ((x.length / 3 : ℕ) : ℤ)) = true
      · rw [if_pos h2] at h
        rw [gradLoop_axisSum pot.ilist _ e G h k, axisSum_replicate]
      · rw [if_neg h2] at h
        exact absurd h (by simp)
    · rw [if_neg h1] at h
      exact absurd h (by simp)

/-- C9 witness. -/
theorem c9_pair_antisymmetry_witness :
    (([2, 0, 0, -2, 0, 0] : List ℚ).getD (3 * (0 : ℤ).toNat + 0) 0 -
        grad6.getD (3 * (0 : ℤ).toNat + 0) 0 =
      -(([2, 0, 0, -2, 0, 0] : List ℚ).getD (3 * (1 : ℤ).toNat + 0) 0 -
        grad6.getD (3 * (1 : ℤ).toNat + 0) 0)) ∧
    axisSum 0 [2, 0, 0, -2, 0, 0] = 0 := by
  constructor
  · exact c9_pair_antisymmetry.1 quadLaw x01 0 1 grad6 1 [2, 0, 0, -2, 0, 0]
      (by norm_num [gradBody, quadLaw, x01, grad6, pairIndex, readPos, drOf,
        r2Of, subAt3, addAt3, subAt, addAt]) 0 (by norm_num)
  · exact c9_pair_antisymmetry.2 pot01 x01 grad6 1 [2, 0, 0, -2, 0, 0]
      (by norm_num [get_energy_gradient, pot01, mkSimplePairwise, quadLaw,
        x01, grad6, gradLoop, gradBody, pairIndex, readPos, drOf, r2Of,
        subAt3, addAt3, subAt, addAt, List.replicate]) 0

/-- C10: under the documented preconditions — every list index `i` satisfies
`0 ≤ i < N`, the coordinate buffer has length `3N`, and the gradient buffer
matches it — every access of both operations is in bounds: for an
even-length list both return `some`; with an odd-length list the last
iteration reads one element past the end of the interaction list, so both
return `none` (the error branch). -/
theorem c10_bounds_safety (pot : SimplePairwiseInteractionList)
    (x grad : List ℚ) (N : ℕ) (hx : x.length = 3 * N)
    (hg : grad.length = x.length)
    (hidx : ∀ i ∈ pot.ilist, 0 ≤ i ∧ i < (N : ℤ)) :
    (Even pot.ilist.length →
      (get_energy pot x).isSome ∧ (get_energy_gradient pot x grad).isSome) ∧
    (¬ Even pot.ilist.length →
      get_energy pot x = none ∧ get_energy_gradient pot x grad = none) := by
  have hcond : ∀ i ∈ pot.ilist, 0 ≤ i ∧ 3 * i.toNat + 2 < x.length := by
    intro i hi
    obtain ⟨h0, hN⟩ := hidx i hi
    refine ⟨h0, ?_⟩
    have hcast : (i.toNat : ℤ) = i := Int.toNat_of_nonneg h0
    omega
  have hall : pot.ilist.all (fun i => i < ((x.length / 3 : ℕ) : ℤ)) = true := by
    rw [List.all_eq_true]
    intro i hi
    have hN := (hidx i hi).2
    have hN3 : x.length / 3 = N := by omega
    rw [hN3]
    exact decide_eq_true hN
  constructor
  · intro hev
    constructor
    · obtain ⟨e, he⟩ := energyLoop_some pot.ilist hcond hev
      unfold get_energy
      rw [he]
      rfl
    · obtain ⟨r, hr⟩ := gradLoop_some pot.ilist (List.replicate x.length 0)
        hcond hev (by simp)
      simp only [get_energy_gradient]
      rw [if_pos hg.symm, if_pos hall, hr]
      rfl
  · intro hodd
    constructor
    · unfold get_energy
      exact energyLoop_none pot.ilist hodd
    · simp only [get_energy_gradient]
      rw [if_pos hg.symm, if_pos hall, gradLoop_none pot.ilist _ hodd]

/-- C10 witness. -/
theorem c10_bounds_safety_witness :
    (Even pot01.ilist.length →
      (get_energy pot01 x01).isSome ∧
        (get_energy_gradient pot01 x01 grad6).isSome) ∧
    (¬ Even pot01.ilist.length →
      get_energy pot01 x01 = none ∧
        get_energy_gradient pot01 x01 grad6 = none) :=
  c10_bounds_safety pot01 x01 grad6 2 (by decide) (by decide) (by decide)

end pele
